import Mathlib

/-!
Verification of the row-deduplication utility `clean_duplicates.py`.

The embedding models the core procedure of the source file: delimiter
sniffing (`get_file_delimiter`), column resolution (`get_header_index` plus
the literal `'0'` guard in `clean_duplicates`), and the main streaming
dedup loop.  Rows are modelled as `List String` (one parsed record per
physical line, so the csv reader's `line_num` equals the number of records
read), the Python `set` of seen keys as an insertion-ordered duplicate-free
list, and the two output files as the lists of rows written to them.
-/

set_option maxHeartbeats 1000000

namespace CleanDup

/-- A deduplication key: either the whole row, as the source's `tuple(line)`,
or a single field value `line[column]` (source line 109). -/
inductive Key where
  | row (r : List String)
  | field (v : String)
deriving DecidableEq

/-- Python list indexing `l[i]` for an int `i`: a negative index counts from
the end of the list; `none` models an IndexError. -/
def pyIndex (l : List String) (i : Int) : Option String :=
  if 0 ≤ i then l.get? i.toNat
  else
    let j : Int := (l.length : Int) + i
    if 0 ≤ j then l.get? j.toNat else none

/-- Result of `get_header_index`: `whole` is Python `None` (deduplicate on the
whole row), `idx i` a resolved integer index, and `emptyStr` the empty-string
selector that the falsiness guard `if column:` returns unchanged (it later
raises a TypeError when used as a list index). -/
inductive ResolvedColumn where
  | whole
  | emptyStr
  | idx (i : Int)
deriving DecidableEq

/-- Whitespace accepted around Python int literals. -/
def isPySpace (c : Char) : Bool :=
  c == ' ' || c == '\t' || c == '\n' || c == '\r' || c == '\x0b' || c == '\x0c'

def digitsToNat (cs : List Char) : Nat :=
  cs.foldl (fun a c => a * 10 + (c.toNat - 48)) 0

/-- Python `int(s)` on a base-10 string: optional surrounding whitespace, an
optional sign, then one or more ASCII digits.  (Python additionally accepts
unicode digits and underscore grouping; those are not modelled.)  `none`
models a ValueError. -/
def pyParseInt (s : String) : Option Int :=
  let t := ((s.data.dropWhile isPySpace).reverse.dropWhile isPySpace).reverse
  match t with
  | [] => none
  | c :: cs =>
    if c = '-' then
      if cs ≠ [] ∧ cs.all Char.isDigit = true then some (-(digitsToNat cs : Int)) else none
    else if c = '+' then
      if cs ≠ [] ∧ cs.all Char.isDigit = true then some (digitsToNat cs : Int) else none
    else if (c :: cs).all Char.isDigit = true then some (digitsToNat (c :: cs) : Int) else none

/-- Model of `get_header_index(header, column)` (source lines 144-162).
`Except.error ()` models the `SystemExit` raised for an out-of-range numeric
selector or an unknown title.  A falsy `column` (Python `None` or the empty
string) is returned unchanged. -/
def get_header_index (header : List String) (column : Option String) :
    Except Unit ResolvedColumn :=
  match column with
  | none => Except.ok ResolvedColumn.whole
  | some s =>
    if s = "" then Except.ok ResolvedColumn.emptyStr
    else
      match pyParseInt s with
      | some k =>
        if k > (header.length : Int) then Except.error ()
        else Except.ok (ResolvedColumn.idx (k - 1))
      | none =>
        if s ∈ header then Except.ok (ResolvedColumn.idx (Int.ofNat (header.indexOf s)))
        else Except.error ()

/-- Column resolution as performed by `clean_duplicates`: the guard
`str(column) == '0'` (source line 74) runs first, before any file is opened;
`get_header_index` runs after the header is read but still before the output
files are opened (source lines 92-98). -/
def resolveColumn (header : List String) (column : Option String) :
    Except Unit ResolvedColumn :=
  if column = some ("0") then Except.error () else get_header_index header column

/-- The key computed at source line 109:
`line[column] if column != None else tuple(line)`; `none` models the
IndexError caught at source line 115. -/
def keyOf (col : Option Int) (row : List String) : Option Key :=
  match col with
  | none => some (Key.row row)
  | some i => (pyIndex row i).map Key.field

/-- Per-run configuration of the streaming loop, after column resolution. -/
structure Cfg where
  header : List String
  col : Option Int
  invert : Bool
  considerIndexErrors : Bool
  errorsDiffer : Bool
deriving DecidableEq

/-- Loop state: the seen-key set (insertion ordered), the IndexError counter
`int_errors`, the data rows written to the primary output after the header,
and the rows written to the error-dump file. -/
structure St where
  set_values : List Key
  int_errors : Nat
  out : List (List String)
  errOut : List (List String)
deriving DecidableEq

/-- Python `set.add`, modelled on an insertion-ordered list of keys. -/
def setAdd (s : List Key) (k : Key) : List Key :=
  if k ∈ s then s else s ++ [k]

def initSt : St := ⟨[], 0, [], []⟩

/-- One iteration of the main loop (source lines 101-124): skip rows equal to
the header, insert the key and write the row according to the set-size
comparison and the invert flag, or handle an IndexError. -/
def step (cfg : Cfg) (st : St) (line : List String) : St :=
  if line = cfg.header then st
  else
    match keyOf cfg.col line with
    | some k =>
      let len0 := st.set_values.length
      let s' := setAdd st.set_values k
      if (s'.length == len0 && cfg.invert) || (!(s'.length == len0) && !cfg.invert) then
        { st with set_values := s', out := st.out ++ [line] }
      else
        { st with set_values := s' }
    | none =>
      let e := st.int_errors + 1
      { st with
        int_errors := e,
        out := if cfg.considerIndexErrors then st.out ++ [line] else st.out,
        errOut :=
          if cfg.errorsDiffer then
            st.errOut ++ ((if e = 1 then [cfg.header] else []) ++ [line])
          else st.errOut }

def runLoop (cfg : Cfg) (st : St) : List (List String) → St
  | [] => st
  | l :: ls => runLoop cfg (step cfg st l) ls

/-- Observable outcome of one successful run: the primary output file, the
error-dump file, and the three counts printed by the final summary
(source lines 126-128). -/
structure Output where
  primary : List (List String)
  errorsFile : List (List String)
  summaryTotal : Nat
  summaryInvalid : Int
  summaryAfter : Int
deriving DecidableEq

/-- One full pass over a file with a resolved column: write the header
unconditionally (source line 96), stream all data rows, and compute the
printed summary from the line counter, the final set size and the error
counter (source lines 126-128). -/
def run_file (cfg : Cfg) (lines : List (List String)) : Output :=
  let st := runLoop cfg initSt lines
  ⟨cfg.header :: st.out,
   st.errOut,
   lines.length + 1,
   ((lines.length : Int) + 1) - st.set_values.length -
     (if cfg.considerIndexErrors then (st.int_errors : Int) else 0) - 1,
   (st.set_values.length : Int) +
     (if cfg.considerIndexErrors then (st.int_errors : Int) else 0) + 1⟩

/-- Model of `output_errors_name = output_errors_name or output_name`
(source line 87): Python `or` falls back on a falsy (absent or empty)
left operand. -/
def resolve_errors_name (output_errors_name : Option String) (output_name : String) :
    String :=
  match output_errors_name with
  | none => output_name
  | some s => if s = "" then output_name else s

/-- Result of a run: a completed run with its outputs, a fatal configuration
error raised before any output file is opened, or a mid-run TypeError abort
(empty-string column selector used as a list index), which happens after the
header was written but before any data row. -/
inductive RunResult where
  | ok (o : Output)
  | configError
  | typeErrorAbort (primary : List (List String)) (errorsFile : List (List String))
deriving DecidableEq

/-- Model of `clean_duplicates` (source lines 51-128) on an already-parsed
file, `input_header` being the first record and `input_lines` the remaining
ones.  Column resolution happens before the output files are opened, so a
configuration error yields no output at all.  With the empty-string selector
the loop raises an uncaught TypeError at the first row that differs from the
header (rows equal to the header are skipped before the key computation). -/
def clean_duplicates (input_header : List String) (input_lines : List (List String))
    (column : Option String) (invert consider_index_errors : Bool)
    (output_name : String) (output_errors_name : Option String) : RunResult :=
  let errorsDiffer := resolve_errors_name output_errors_name output_name != output_name
  match resolveColumn input_header column with
  | Except.error _ => RunResult.configError
  | Except.ok ResolvedColumn.whole =>
    RunResult.ok (run_file ⟨input_header, none, invert, consider_index_errors, errorsDiffer⟩ input_lines)
  | Except.ok (ResolvedColumn.idx i) =>
    RunResult.ok (run_file ⟨input_header, some i, invert, consider_index_errors, errorsDiffer⟩ input_lines)
  | Except.ok ResolvedColumn.emptyStr =>
    if ∀ l ∈ input_lines, l = input_header then
      RunResult.ok ⟨[input_header], [], input_lines.length + 1, (input_lines.length : Int), 1⟩
    else RunResult.typeErrorAbort [input_header] []

/-- The data rows of a file that hit the IndexError branch: rows that differ
from the header and whose key computation fails. -/
def errorRows (col : Option Int) (h : List String) (lines : List (List String)) :
    List (List String) :=
  lines.filter (fun r => decide (r ≠ h ∧ keyOf col r = none))

/-- The data rows the loop appends to the primary output, as a function of
the starting seen-key set. -/
def outGrowth (cfg : Cfg) (S : List Key) : List (List String) → List (List String)
  | [] => []
  | r :: rs =>
    if r = cfg.header then outGrowth cfg S rs
    else
      match keyOf cfg.col r with
      | none => (if cfg.considerIndexErrors then [r] else []) ++ outGrowth cfg S rs
      | some k =>
        (if ((setAdd S k).length == S.length && cfg.invert)
            || (!((setAdd S k).length == S.length) && !cfg.invert)
         then [r] else []) ++ outGrowth cfg (setAdd S k) rs

/-- The rows the loop appends to the error-dump output, as a function of the
starting error count. -/
def errDump (cfg : Cfg) (e0 : Nat) : List (List String) → List (List String)
  | [] => []
  | r :: rs =>
    if r = cfg.header then errDump cfg e0 rs
    else
      match keyOf cfg.col r with
      | some _ => errDump cfg e0 rs
      | none =>
        (if cfg.errorsDiffer then (if e0 + 1 = 1 then [cfg.header] else []) ++ [r] else []) ++
          errDump cfg (e0 + 1) rs

/-- The seen-key set after processing a list of rows. -/
def seenAfter (cfg : Cfg) (S : List Key) : List (List String) → List Key
  | [] => S
  | r :: rs =>
    if r = cfg.header then seenAfter cfg S rs
    else
      match keyOf cfg.col r with
      | none => seenAfter cfg S rs
      | some k => seenAfter cfg (setAdd S k) rs

/-- The keys of a list of rows, in order, dropping keyless rows. -/
def keysOf (col : Option Int) (ls : List (List String)) : List Key :=
  ls.filterMap (keyOf col)

/-- The key contributed by row `i` of the file: `none` for a missing row, a
row equal to the header (skipped before the key computation), or an
IndexError row. -/
def rowKeyAt (col : Option Int) (h : List String) (lines : List (List String)) (i : Nat) :
    Option Key :=
  match lines.get? i with
  | none => none
  | some r => if r = h then none else keyOf col r

/-- Position `i` holds the first occurrence of its key, relative to a set `S`
of keys already seen before the file started. -/
def isFirstOccFrom (col : Option Int) (h : List String) (S : List Key)
    (lines : List (List String)) (i : Nat) : Bool :=
  match rowKeyAt col h lines i with
  | none => false
  | some k =>
    !(decide (k ∈ S)) && (List.range i).all (fun j => decide (rowKeyAt col h lines j ≠ some k))

/-- The data rows that are the first occurrence of their key in file order. -/
def firstOccurrences (col : Option Int) (h : List String) (lines : List (List String)) :
    List (List String) :=
  (List.range lines.length).filterMap
    (fun i => if isFirstOccFrom col h [] lines i then lines.get? i else none)

/-- Position `i` holds a second-or-later occurrence of its key, relative to a
set `S` of keys already seen before the file started. -/
def isRepeatFrom (col : Option Int) (h : List String) (S : List Key)
    (lines : List (List String)) (i : Nat) : Bool :=
  match rowKeyAt col h lines i with
  | none => false
  | some k =>
    decide (k ∈ S) || (List.range i).any (fun j => decide (rowKeyAt col h lines j = some k))

/-- The data rows that repeat an earlier key, in file order. -/
def duplicateOccurrences (col : Option Int) (h : List String) (lines : List (List String)) :
    List (List String) :=
  (List.range lines.length).filterMap
    (fun i => if isRepeatFrom col h [] lines i then lines.get? i else none)

/-- The seen set after one row. -/
def stepSeen (col : Option Int) (h : List String) (S : List Key) (r : List String) :
    List Key :=
  if r = h then S
  else
    match keyOf col r with
    | none => S
    | some k => setAdd S k

/-- States of the one-line csv field scanner: at a field start, inside an
unquoted field, inside a quoted field, or just after a quote character inside
a quoted field. -/
inductive CsvState where
  | startField
  | inUnquoted
  | inQuoted
  | quoteInQuoted
deriving DecidableEq

/-- One-line csv scan with delimiter ',' and quote character '"' in the
non-strict minimal-quoting dialect that `reader(input_file)` uses inside
`get_file_delimiter`: a quote is structural only at a field start, a doubled
quote inside a quoted field is a literal quote, text after a closing quote
continues the field, and an unterminated quote ends with the line. -/
def csvLoop : CsvState → List Char → List Char → List (List Char)
  | _, cur, [] => [cur]
  | CsvState.startField, cur, ch :: cs =>
    if ch = '"' then csvLoop CsvState.inQuoted cur cs
    else if ch = ',' then cur :: csvLoop CsvState.startField [] cs
    else csvLoop CsvState.inUnquoted (cur ++ [ch]) cs
  | CsvState.inUnquoted, cur, ch :: cs =>
    if ch = ',' then cur :: csvLoop CsvState.startField [] cs
    else csvLoop CsvState.inUnquoted (cur ++ [ch]) cs
  | CsvState.inQuoted, cur, ch :: cs =>
    if ch = '"' then csvLoop CsvState.quoteInQuoted cur cs
    else csvLoop CsvState.inQuoted (cur ++ [ch]) cs
  | CsvState.quoteInQuoted, cur, ch :: cs =>
    if ch = '"' then csvLoop CsvState.inQuoted (cur ++ ['"']) cs
    else if ch = ',' then cur :: csvLoop CsvState.startField [] cs
    else csvLoop CsvState.inUnquoted (cur ++ [ch]) cs

/-- Parse one raw line as a comma-delimited csv record; a blank line yields
the empty record, as `csv.reader` does. -/
def csvSplitComma (l : List Char) : List (List Char) :=
  if l = [] then [] else csvLoop CsvState.startField [] l

/-- The quote character Python repr chooses for a string: a single quote,
unless the string contains one and no double quote. -/
def reprQuote (s : List Char) : Char :=
  if Char.ofNat 39 ∈ s ∧ '"' ∉ s then '"' else Char.ofNat 39

/-- One character of the escaped body of a Python string repr.  Python
renders other control characters as \xHH hex escapes; those contain none of
the sniffed tokens, and are modelled verbatim here. -/
def escChar (q c : Char) : List Char :=
  if c = '\\' then ['\\', '\\']
  else if c = q then ['\\', q]
  else if c = '\t' then ['\\', 't']
  else if c = '\n' then ['\\', 'n']
  else if c = '\r' then ['\\', 'r']
  else [c]

/-- Python repr of one string: quote, escaped body, quote. -/
def reprStr (s : List Char) : List Char :=
  reprQuote s :: s.flatMap (escChar (reprQuote s)) ++ [reprQuote s]

/-- Comma-space separated concatenation, as inside a Python list repr. -/
def joinComma : List (List Char) → List Char
  | [] => []
  | [x] => x
  | x :: y :: ys => x ++ [',', ' '] ++ joinComma (y :: ys)

/-- Python `str(...)` of a list of strings. -/
def pyReprRow (row : List (List Char)) : List Char :=
  '[' :: joinComma (row.map reprStr) ++ [']']

/-- Whether the two characters a, b occur adjacently, in that order. -/
def hasPair (a b : Char) : List Char → Bool
  | [] => false
  | [_] => false
  | x :: y :: rest => (decide (x = a) && decide (y = b)) || hasPair a b (y :: rest)

/-- Model of `get_file_delimiter` (source lines 130-142) on the raw first
line of the file: the csv reader parses it with its default comma dialect,
`str(next(file_reader))` renders the parsed row, and the candidates
['|', '\\t', ';', ','] are searched in that rendering in order — the tab
candidate as the two-character escape backslash-t, mapped back to a real tab
on success — with newline as the fallback. -/
def get_file_delimiter (rawHeaderLine : List Char) : Char :=
  let p := pyReprRow (csvSplitComma rawHeaderLine)
  if '|' ∈ p then '|'
  else if hasPair '\\' 't' p then '\t'
  else if ';' ∈ p then ';'
  else if ',' ∈ p then ','
  else '\n'

/-- The amended sniffer contract, stated on the parsed header row: '|' and
';' match when some field contains them, tab matches when some field contains
a tab or a literal backslash followed by 't', and ',' matches when some field
contains a comma or the record has at least two fields. -/
def sniffSpec (row : List (List Char)) : Char :=
  if ∃ f ∈ row, '|' ∈ f then '|'
  else if ∃ f ∈ row, '\t' ∈ f ∨ hasPair '\\' 't' f = true then '\t'
  else if ∃ f ∈ row, ';' ∈ f then ';'
  else if (∃ f ∈ row, ',' ∈ f) ∨ 2 ≤ row.length then ','
  else '\n'

theorem mem_setAdd {s : List Key} {k a : Key} : a ∈ setAdd s k ↔ a ∈ s ∨ a = k := by
  unfold setAdd
  split
  · rename_i hk
    constructor
    · exact Or.inl
    · rintro (h | rfl)
      · exact h
      · exact hk
  · simp

theorem setAdd_of_mem {s : List Key} {k : Key} (h : k ∈ s) : setAdd s k = s := by
  unfold setAdd; simp [h]

theorem setAdd_of_not_mem {s : List Key} {k : Key} (h : k ∉ s) : setAdd s k = s ++ [k] := by
  unfold setAdd; simp [h]

theorem step_header (cfg : Cfg) (st : St) {l : List String} (h : l = cfg.header) :
    step cfg st l = st := by
  unfold step; simp [h]

theorem step_key_mem {cfg : Cfg} {st : St} {l : List String} {k : Key}
    (hl : l ≠ cfg.header) (hk : keyOf cfg.col l = some k) (hm : k ∈ st.set_values) :
    step cfg st l = if cfg.invert then { st with out := st.out ++ [l] } else st := by
  unfold step
  rw [if_neg hl]
  simp only [hk, setAdd_of_mem hm]
  cases cfg.invert <;> simp

theorem step_key_new {cfg : Cfg} {st : St} {l : List String} {k : Key}
    (hl : l ≠ cfg.header) (hk : keyOf cfg.col l = some k) (hm : k ∉ st.set_values) :
    step cfg st l =
      if cfg.invert then { st with set_values := st.set_values ++ [k] }
      else { st with set_values := st.set_values ++ [k], out := st.out ++ [l] } := by
  unfold step
  rw [if_neg hl]
  simp only [hk, setAdd_of_not_mem hm]
  cases cfg.invert <;> simp

theorem step_err {cfg : Cfg} {st : St} {l : List String}
    (hl : l ≠ cfg.header) (hk : keyOf cfg.col l = none) :
    step cfg st l =
      { st with
        int_errors := st.int_errors + 1,
        out := if cfg.considerIndexErrors then st.out ++ [l] else st.out,
        errOut :=
          if cfg.errorsDiffer then
            st.errOut ++ ((if st.int_errors + 1 = 1 then [cfg.header] else []) ++ [l])
          else st.errOut } := by
  unfold step
  rw [if_neg hl]
  simp only [hk]

theorem runLoop_out (cfg : Cfg) :
    ∀ (ls : List (List String)) (st : St),
      (runLoop cfg st ls).out = st.out ++ outGrowth cfg st.set_values ls := by
  intro ls
  induction ls with
  | nil => intro st; simp [runLoop, outGrowth]
  | cons r rs ih =>
    intro st
    show (runLoop cfg (step cfg st r) rs).out = _
    rw [ih]
    by_cases hh : r = cfg.header
    · rw [step_header cfg st hh]
      simp [outGrowth, hh]
    · cases hk : keyOf cfg.col r with
      | none =>
        rw [step_err hh hk]
        cases hc : cfg.considerIndexErrors <;>
          simp [outGrowth, hh, hk, hc, List.append_assoc]
      | some k =>
        by_cases hm : k ∈ st.set_values
        · rw [step_key_mem hh hk hm]
          cases hi : cfg.invert <;>
            simp [outGrowth, hh, hk, hi, setAdd_of_mem hm, List.append_assoc]
        · rw [step_key_new hh hk hm]
          cases hi : cfg.invert <;>
            simp [outGrowth, hh, hk, hi, setAdd_of_not_mem hm, List.append_assoc]

theorem runLoop_errOut (cfg : Cfg) :
    ∀ (ls : List (List String)) (st : St),
      (runLoop cfg st ls).errOut = st.errOut ++ errDump cfg st.int_errors ls := by
  intro ls
  induction ls with
  | nil => intro st; simp [runLoop, errDump]
  | cons r rs ih =>
    intro st
    show (runLoop cfg (step cfg st r) rs).errOut = _
    rw [ih]
    by_cases hh : r = cfg.header
    · rw [step_header cfg st hh]
      simp [errDump, hh]
    · cases hk : keyOf cfg.col r with
      | none =>
        rw [step_err hh hk]
        cases hd : cfg.errorsDiffer <;>
          simp [errDump, hh, hk, hd, List.append_assoc]
      | some k =>
        by_cases hm : k ∈ st.set_values
        · rw [step_key_mem hh hk hm]
          cases hi : cfg.invert <;> simp [errDump, hh, hk, hi]
        · rw [step_key_new hh hk hm]
          cases hi : cfg.invert <;> simp [errDump, hh, hk, hi]

theorem runLoop_int_errors (cfg : Cfg) :
    ∀ (ls : List (List String)) (st : St),
      (runLoop cfg st ls).int_errors =
        st.int_errors + (errorRows cfg.col cfg.header ls).length := by
  intro ls
  induction ls with
  | nil => intro st; simp [runLoop, errorRows]
  | cons r rs ih =>
    intro st
    show (runLoop cfg (step cfg st r) rs).int_errors = _
    rw [ih]
    by_cases hh : r = cfg.header
    · rw [step_header cfg st hh]
      simp [errorRows, List.filter_cons, hh]
    · cases hk : keyOf cfg.col r with
      | none =>
        rw [step_err hh hk]
        simp only [errorRows] at *
        simp [List.filter_cons, hh, hk]
        omega
      | some k =>
        have hrec : errorRows cfg.col cfg.header (r :: rs) = errorRows cfg.col cfg.header rs := by
          simp [errorRows, List.filter_cons, hk]
        by_cases hm : k ∈ st.set_values
        · rw [step_key_mem hh hk hm, hrec]
          cases hi : cfg.invert <;> simp [hi]
        · rw [step_key_new hh hk hm, hrec]
          cases hi : cfg.invert <;> simp [hi]

theorem errDump_eq (cfg : Cfg) :
    ∀ (ls : List (List String)) (e0 : Nat),
      errDump cfg e0 ls =
        if cfg.errorsDiffer = true then
          (if e0 = 0 ∧ errorRows cfg.col cfg.header ls ≠ [] then
            cfg.header :: errorRows cfg.col cfg.header ls
          else errorRows cfg.col cfg.header ls)
        else [] := by
  intro ls
  induction ls with
  | nil =>
    intro e0
    simp [errDump, errorRows]
  | cons r rs ih =>
    intro e0
    by_cases hh : r = cfg.header
    · have he : errorRows cfg.col cfg.header (r :: rs) = errorRows cfg.col cfg.header rs := by
        simp [errorRows, List.filter_cons, hh]
      rw [he, ← ih e0]
      simp [errDump, hh]
    · cases hk : keyOf cfg.col r with
      | some k =>
        have he : errorRows cfg.col cfg.header (r :: rs) = errorRows cfg.col cfg.header rs := by
          simp [errorRows, List.filter_cons, hk]
        rw [he, ← ih e0]
        simp [errDump, hh, hk]
      | none =>
        have he : errorRows cfg.col cfg.header (r :: rs) = r :: errorRows cfg.col cfg.header rs := by
          simp [errorRows, List.filter_cons, hh, hk]
        rw [he]
        have hstep : errDump cfg e0 (r :: rs) =
            (if cfg.errorsDiffer then (if e0 + 1 = 1 then [cfg.header] else []) ++ [r] else []) ++
              errDump cfg (e0 + 1) rs := by
          simp [errDump, hh, hk]
        rw [hstep, ih (e0 + 1)]
        cases hd : cfg.errorsDiffer
        · simp
        · cases e0 <;> simp

theorem succ_beq_self_false (n : Nat) : (n + 1 == n) = false := by
  have h : n + 1 ≠ n := by omega
  simp [h]

theorem runLoop_set (cfg : Cfg) :
    ∀ (ls : List (List String)) (st : St),
      (runLoop cfg st ls).set_values = seenAfter cfg st.set_values ls := by
  intro ls
  induction ls with
  | nil => intro st; simp [runLoop, seenAfter]
  | cons r rs ih =>
    intro st
    show (runLoop cfg (step cfg st r) rs).set_values = _
    rw [ih]
    by_cases hh : r = cfg.header
    · rw [step_header cfg st hh]; simp [seenAfter, hh]
    · cases hk : keyOf cfg.col r with
      | none =>
        rw [step_err hh hk]; simp [seenAfter, hh, hk]
      | some k =>
        by_cases hm : k ∈ st.set_values
        · rw [step_key_mem hh hk hm]
          cases hi : cfg.invert <;> simp [seenAfter, hh, hk, hi, setAdd_of_mem hm]
        · rw [step_key_new hh hk hm]
          cases hi : cfg.invert <;> simp [seenAfter, hh, hk, hi, setAdd_of_not_mem hm]

/-- Row-count accounting in normal mode: the number of rows written equals the
growth of the seen set plus, when the consider-errors flag is set, the number
of IndexError rows. -/
theorem outGrowth_length_normal (cfg : Cfg) (hInv : cfg.invert = false) :
    ∀ (ls : List (List String)) (S : List Key),
      (outGrowth cfg S ls).length + S.length =
        (seenAfter cfg S ls).length +
          (if cfg.considerIndexErrors then (errorRows cfg.col cfg.header ls).length else 0) := by
  intro ls
  induction ls with
  | nil => intro S; simp [outGrowth, seenAfter, errorRows]
  | cons r rs ih =>
    intro S
    by_cases hh : r = cfg.header
    · have he : errorRows cfg.col cfg.header (r :: rs) = errorRows cfg.col cfg.header rs := by
        simp [errorRows, List.filter_cons, hh]
      simp only [outGrowth, seenAfter, if_pos hh, he]
      exact ih S
    · cases hk : keyOf cfg.col r with
      | none =>
        have he : errorRows cfg.col cfg.header (r :: rs) = r :: errorRows cfg.col cfg.header rs := by
          simp [errorRows, List.filter_cons, hh, hk]
        simp only [outGrowth, seenAfter, if_neg hh, hk, he]
        have := ih S
        cases hc : cfg.considerIndexErrors <;> simp [hc] at this ⊢ <;> omega
      | some k =>
        have he : errorRows cfg.col cfg.header (r :: rs) = errorRows cfg.col cfg.header rs := by
          simp [errorRows, List.filter_cons, hk]
        simp only [outGrowth, seenAfter, if_neg hh, hk, he]
        by_cases hm : k ∈ S
        · rw [setAdd_of_mem hm]
          simp only [hInv]
          have := ih S
          simp
          omega
        · rw [setAdd_of_not_mem hm]
          simp only [hInv]
          have := ih (S ++ [k])
          simp [List.length_append] at this ⊢
          omega

/-- Rows written to the primary output never equal the header. -/
theorem outGrowth_ne_header (cfg : Cfg) :
    ∀ (ls : List (List String)) (S : List Key) (r : List String),
      r ∈ outGrowth cfg S ls → r ≠ cfg.header := by
  intro ls
  induction ls with
  | nil => intro S r hr; simp [outGrowth] at hr
  | cons l rs ih =>
    intro S r hr
    by_cases hh : l = cfg.header
    · simp only [outGrowth, if_pos hh] at hr
      exact ih S r hr
    · cases hk : keyOf cfg.col l with
      | none =>
        simp only [outGrowth, if_neg hh, hk] at hr
        rcases List.mem_append.mp hr with h1 | h2
        · rcases List.mem_ite_nil_right.mp h1 with ⟨_, h1⟩
          rw [List.mem_singleton.mp h1]; exact hh
        · exact ih S r h2
      | some k =>
        simp only [outGrowth, if_neg hh, hk] at hr
        rcases List.mem_append.mp hr with h1 | h2
        · rcases List.mem_ite_nil_right.mp h1 with ⟨_, h1⟩
          rw [List.mem_singleton.mp h1]; exact hh
        · exact ih (setAdd S k) r h2

/-- A keyless (IndexError) row can be in the primary output only when the
consider-errors flag is set. -/
theorem outGrowth_key_none_consider (cfg : Cfg) :
    ∀ (ls : List (List String)) (S : List Key) (r : List String),
      r ∈ outGrowth cfg S ls → keyOf cfg.col r = none → cfg.considerIndexErrors = true := by
  intro ls
  induction ls with
  | nil => intro S r hr; simp [outGrowth] at hr
  | cons l rs ih =>
    intro S r hr hkey
    by_cases hh : l = cfg.header
    · simp only [outGrowth, if_pos hh] at hr
      exact ih S r hr hkey
    · cases hk : keyOf cfg.col l with
      | none =>
        simp only [outGrowth, if_neg hh, hk] at hr
        rcases List.mem_append.mp hr with h1 | h2
        · exact (List.mem_ite_nil_right.mp h1).1
        · exact ih S r h2 hkey
      | some k =>
        simp only [outGrowth, if_neg hh, hk] at hr
        rcases List.mem_append.mp hr with h1 | h2
        · rcases List.mem_ite_nil_right.mp h1 with ⟨_, h1⟩
          rw [List.mem_singleton.mp h1] at hkey
          rw [hk] at hkey
          cases hkey
        · exact ih (setAdd S k) r h2 hkey

/-- In normal mode the keys of the written rows are pairwise distinct and
disjoint from the starting seen set. -/
theorem outGrowth_keys_nodup (cfg : Cfg) (hInv : cfg.invert = false) :
    ∀ (ls : List (List String)) (S : List Key),
      (keysOf cfg.col (outGrowth cfg S ls)).Nodup ∧
        ∀ k ∈ keysOf cfg.col (outGrowth cfg S ls), k ∉ S := by
  intro ls
  induction ls with
  | nil => intro S; simp [outGrowth, keysOf]
  | cons l rs ih =>
    intro S
    by_cases hh : l = cfg.header
    · simp only [outGrowth, if_pos hh]
      exact ih S
    · cases hk : keyOf cfg.col l with
      | none =>
        simp only [outGrowth, if_neg hh, hk]
        have hdrop :
            keysOf cfg.col ((if cfg.considerIndexErrors then [l] else []) ++ outGrowth cfg S rs)
              = keysOf cfg.col (outGrowth cfg S rs) := by
          cases hc : cfg.considerIndexErrors <;> simp [keysOf, hk]
        rw [hdrop]
        exact ih S
      | some k =>
        simp only [outGrowth, if_neg hh, hk]
        by_cases hm : k ∈ S
        · rw [setAdd_of_mem hm]
          have hc : ((S.length == S.length && cfg.invert)
              || (!(S.length == S.length) && !cfg.invert)) = cfg.invert := by simp
          rw [hc, hInv]
          simpa using ih S
        · rw [setAdd_of_not_mem hm]
          have hc : (((S ++ [k]).length == S.length && cfg.invert)
              || (!((S ++ [k]).length == S.length) && !cfg.invert)) = !cfg.invert := by
            simp [succ_beq_self_false]
          rw [hc, hInv]
          have hrec := ih (S ++ [k])
          have hkl : keysOf cfg.col ([l] ++ outGrowth cfg (S ++ [k]) rs)
              = k :: keysOf cfg.col (outGrowth cfg (S ++ [k]) rs) := by
            simp [keysOf, hk]
          simp only [Bool.not_false, if_pos, hkl]
          constructor
          · refine List.Nodup.cons ?_ hrec.1
            intro hmem
            have := hrec.2 k hmem
            simp [List.mem_append] at this
          · intro k' hk'
            rcases List.mem_cons.mp hk' with rfl | hk'
            · exact hm
            · have := hrec.2 k' hk'
              intro hS
              exact this (List.mem_append.mpr (Or.inl hS))

/-- Replaying the deduplicated output: a list of non-header rows with pairwise
distinct keys disjoint from the seen set, whose keyless rows presuppose the
consider-errors flag, is written back unchanged. -/
theorem outGrowth_id (cfg : Cfg) (hInv : cfg.invert = false) :
    ∀ (ls : List (List String)) (S : List Key),
      (∀ r ∈ ls, r ≠ cfg.header) →
      (∀ r ∈ ls, keyOf cfg.col r = none → cfg.considerIndexErrors = true) →
      (keysOf cfg.col ls).Nodup →
      (∀ k ∈ keysOf cfg.col ls, k ∉ S) →
      outGrowth cfg S ls = ls := by
  intro ls
  induction ls with
  | nil => intro S _ _ _ _; simp [outGrowth]
  | cons l rs ih =>
    intro S hne hcons hnd hdisj
    have hh : l ≠ cfg.header := hne l (List.mem_cons_self l rs)
    cases hk : keyOf cfg.col l with
    | none =>
      have hc : cfg.considerIndexErrors = true := hcons l (List.mem_cons_self l rs) hk
      have hkeys : keysOf cfg.col (l :: rs) = keysOf cfg.col rs := by simp [keysOf, hk]
      simp only [outGrowth, if_neg hh, hk, hc, if_pos]
      rw [ih S (fun r hr => hne r (List.mem_cons_of_mem l hr))
          (fun r hr => hcons r (List.mem_cons_of_mem l hr))
          (hkeys ▸ hnd) (fun k hkk => hdisj k (hkeys ▸ hkk))]
      rfl
    | some k =>
      have hkeys : keysOf cfg.col (l :: rs) = k :: keysOf cfg.col rs := by simp [keysOf, hk]
      have hm : k ∉ S := hdisj k (by rw [hkeys]; exact List.mem_cons_self _ _)
      have hnd' : (keysOf cfg.col rs).Nodup := by
        rw [hkeys] at hnd; exact hnd.of_cons
      have hknotin : k ∉ keysOf cfg.col rs := by
        rw [hkeys] at hnd
        exact (List.nodup_cons.mp hnd).1
      simp only [outGrowth, if_neg hh, hk]
      rw [setAdd_of_not_mem hm]
      have hcnd : (((S ++ [k]).length == S.length && cfg.invert)
          || (!((S ++ [k]).length == S.length) && !cfg.invert)) = !cfg.invert := by
        simp [succ_beq_self_false]
      rw [hcnd, hInv]
      have := ih (S ++ [k]) (fun r hr => hne r (List.mem_cons_of_mem l hr))
          (fun r hr => hcons r (List.mem_cons_of_mem l hr)) hnd'
          (fun k' hk' => by
            intro hmem
            rcases List.mem_append.mp hmem with hS | hsing
            · exact hdisj k' (by rw [hkeys]; exact List.mem_cons_of_mem _ hk') hS
            · rw [List.mem_singleton.mp hsing] at hk'
              exact hknotin hk')
      rw [this]
      rfl

/-- With the consider-errors flag set, the IndexError rows form a sublist of
the rows written to the primary output. -/
theorem errorRows_sublist_outGrowth (cfg : Cfg) (hc : cfg.considerIndexErrors = true) :
    ∀ (ls : List (List String)) (S : List Key),
      List.Sublist (errorRows cfg.col cfg.header ls) (outGrowth cfg S ls) := by
  intro ls
  induction ls with
  | nil => intro S; simp [outGrowth, errorRows]
  | cons l rs ih =>
    intro S
    by_cases hh : l = cfg.header
    · have he : errorRows cfg.col cfg.header (l :: rs) = errorRows cfg.col cfg.header rs := by
        simp [errorRows, List.filter_cons, hh]
      rw [he]
      simp only [outGrowth, if_pos hh]
      exact ih S
    · cases hk : keyOf cfg.col l with
      | none =>
        have he : errorRows cfg.col cfg.header (l :: rs) = l :: errorRows cfg.col cfg.header rs := by
          simp [errorRows, List.filter_cons, hh, hk]
        rw [he]
        simp only [outGrowth, if_neg hh, hk, hc, if_pos]
        exact List.Sublist.cons₂ l (ih S)
      | some k =>
        have he : errorRows cfg.col cfg.header (l :: rs) = errorRows cfg.col cfg.header rs := by
          simp [errorRows, List.filter_cons, hk]
        rw [he]
        simp only [outGrowth, if_neg hh, hk]
        refine List.Sublist.trans (ih (setAdd S k)) (List.sublist_append_right _ _)

theorem rowKeyAt_cons_succ (col : Option Int) (h r : List String)
    (rs : List (List String)) (i : Nat) :
    rowKeyAt col h (r :: rs) (i + 1) = rowKeyAt col h rs i := rfl

theorem rowKeyAt_cons_zero (col : Option Int) (h r : List String) (rs : List (List String)) :
    rowKeyAt col h (r :: rs) 0 = if r = h then none else keyOf col r := rfl

theorem wroteCond_mem {S : List Key} {k : Key} (hm : k ∈ S) (b : Bool) :
    ((setAdd S k).length == S.length && b
      || (!((setAdd S k).length == S.length) && !b)) = b := by
  rw [setAdd_of_mem hm]
  simp

theorem wroteCond_new {S : List Key} {k : Key} (hm : k ∉ S) (b : Bool) :
    ((setAdd S k).length == S.length && b
      || (!((setAdd S k).length == S.length) && !b)) = !b := by
  rw [setAdd_of_not_mem hm]
  simp [succ_beq_self_false]

theorem isFirstOccFrom_cons_succ (col : Option Int) (h r : List String)
    (S : List Key) (rs : List (List String)) (i : Nat) :
    isFirstOccFrom col h S (r :: rs) (i + 1) =
      isFirstOccFrom col h (stepSeen col h S r) rs i := by
  cases hk : rowKeyAt col h rs i with
  | none =>
    unfold isFirstOccFrom
    rw [rowKeyAt_cons_succ, hk]
  | some k =>
    have hL : isFirstOccFrom col h S (r :: rs) (i + 1) =
        (!(decide (k ∈ S)) &&
          (List.range (i + 1)).all (fun j => decide (rowKeyAt col h (r :: rs) j ≠ some k))) := by
      unfold isFirstOccFrom
      rw [rowKeyAt_cons_succ, hk]
    have hR : isFirstOccFrom col h (stepSeen col h S r) rs i =
        (!(decide (k ∈ stepSeen col h S r)) &&
          (List.range i).all (fun j => decide (rowKeyAt col h rs j ≠ some k))) := by
      unfold isFirstOccFrom
      rw [hk]
    rw [hL, hR]
    rw [List.range_succ_eq_map, List.all_cons, List.all_map]
    have hfun : ((fun j => decide (rowKeyAt col h (r :: rs) j ≠ some k)) ∘ Nat.succ)
        = (fun j => decide (rowKeyAt col h rs j ≠ some k)) := by
      funext j
      simp only [Function.comp_apply, Nat.succ_eq_add_one, rowKeyAt_cons_succ]
    rw [hfun, rowKeyAt_cons_zero]
    unfold stepSeen
    by_cases hh : r = h
    · rw [if_pos hh, if_pos hh]
      simp
    · rw [if_neg hh, if_neg hh]
      cases hk0 : keyOf col r with
      | none => simp
      | some k0 =>
        by_cases h1 : k ∈ S
        · simp [h1, mem_setAdd]
        · by_cases h2 : k = k0
          · subst h2
            simp [h1, mem_setAdd]
          · have hne : (some k0 ≠ some k) := by
              intro hcon
              exact h2 (Option.some.inj hcon).symm
            have hnm : ¬(k ∈ setAdd S k0) := by
              rw [mem_setAdd]
              rintro (hx | hx)
              · exact h1 hx
              · exact h2 hx
            simp [h1, hne, hnm]

theorem isRepeatFrom_cons_succ (col : Option Int) (h r : List String)
    (S : List Key) (rs : List (List String)) (i : Nat) :
    isRepeatFrom col h S (r :: rs) (i + 1) =
      isRepeatFrom col h (stepSeen col h S r) rs i := by
  cases hk : rowKeyAt col h rs i with
  | none =>
    unfold isRepeatFrom
    rw [rowKeyAt_cons_succ, hk]
  | some k =>
    have hL : isRepeatFrom col h S (r :: rs) (i + 1) =
        (decide (k ∈ S) ||
          (List.range (i + 1)).any (fun j => decide (rowKeyAt col h (r :: rs) j = some k))) := by
      unfold isRepeatFrom
      rw [rowKeyAt_cons_succ, hk]
    have hR : isRepeatFrom col h (stepSeen col h S r) rs i =
        (decide (k ∈ stepSeen col h S r) ||
          (List.range i).any (fun j => decide (rowKeyAt col h rs j = some k))) := by
      unfold isRepeatFrom
      rw [hk]
    rw [hL, hR]
    rw [List.range_succ_eq_map, List.any_cons, List.any_map]
    have hfun : ((fun j => decide (rowKeyAt col h (r :: rs) j = some k)) ∘ Nat.succ)
        = (fun j => decide (rowKeyAt col h rs j = some k)) := by
      funext j
      simp only [Function.comp_apply, Nat.succ_eq_add_one, rowKeyAt_cons_succ]
    rw [hfun, rowKeyAt_cons_zero]
    unfold stepSeen
    by_cases hh : r = h
    · rw [if_pos hh, if_pos hh]
      simp
    · rw [if_neg hh, if_neg hh]
      cases hk0 : keyOf col r with
      | none => simp
      | some k0 =>
        by_cases h2 : k = k0
        · subst h2
          simp [mem_setAdd]
        · have hne : ¬(some k0 = some k) := by
            intro hcon
            exact h2 (Option.some.inj hcon).symm
          have hmm : (k ∈ setAdd S k0) ↔ k ∈ S := by
            rw [mem_setAdd]
            constructor
            · rintro (hx | hx)
              · exact hx
              · exact absurd hx h2
            · exact Or.inl
          simp [hne, hmm]

theorem firstOcc_comp_succ (col : Option Int) (h r : List String)
    (S : List Key) (rs : List (List String)) :
    ((fun i => if isFirstOccFrom col h S (r :: rs) i then (r :: rs).get? i else none)
        ∘ Nat.succ)
      = (fun i => if isFirstOccFrom col h (stepSeen col h S r) rs i
                  then rs.get? i else none) := by
  funext i
  simp only [Function.comp_apply, Nat.succ_eq_add_one, isFirstOccFrom_cons_succ,
    List.get?_cons_succ]

theorem repeat_comp_succ (col : Option Int) (h r : List String)
    (S : List Key) (rs : List (List String)) :
    ((fun i => if isRepeatFrom col h S (r :: rs) i then (r :: rs).get? i else none)
        ∘ Nat.succ)
      = (fun i => if isRepeatFrom col h (stepSeen col h S r) rs i
                  then rs.get? i else none) := by
  funext i
  simp only [Function.comp_apply, Nat.succ_eq_add_one, isRepeatFrom_cons_succ,
    List.get?_cons_succ]

/-- In normal mode, with no IndexError rows, the loop writes exactly the
first-occurrence rows. -/
theorem outGrowth_firstOcc (cfg : Cfg) (hInv : cfg.invert = false) :
    ∀ (ls : List (List String)) (S : List Key),
      (∀ r ∈ ls, r ≠ cfg.header → (keyOf cfg.col r).isSome = true) →
      outGrowth cfg S ls =
        (List.range ls.length).filterMap
          (fun i => if isFirstOccFrom cfg.col cfg.header S ls i then ls.get? i else none) := by
  intro ls
  induction ls with
  | nil => intro S _; simp [outGrowth]
  | cons r rs ih =>
    intro S hkeys
    have hkeys' : ∀ x ∈ rs, x ≠ cfg.header → (keyOf cfg.col x).isSome = true :=
      fun x hx => hkeys x (List.mem_cons_of_mem r hx)
    rw [List.length_cons, List.range_succ_eq_map, List.filterMap_cons, List.filterMap_map,
      firstOcc_comp_succ]
    by_cases hh : r = cfg.header
    · have h0 : isFirstOccFrom cfg.col cfg.header S (r :: rs) 0 = false := by
        unfold isFirstOccFrom
        rw [rowKeyAt_cons_zero, if_pos hh]
      rw [h0]
      have hseen : stepSeen cfg.col cfg.header S r = S := by simp [stepSeen, hh]
      rw [hseen]
      simp only [Bool.false_eq_true, if_false]
      simp only [outGrowth, if_pos hh]
      exact ih S hkeys'
    · cases hk0 : keyOf cfg.col r with
      | none =>
        have := hkeys r (List.mem_cons_self r rs) hh
        rw [hk0] at this
        cases this
      | some k0 =>
        have hseen : stepSeen cfg.col cfg.header S r = setAdd S k0 := by
          simp [stepSeen, hh, hk0]
        rw [hseen]
        by_cases hm : k0 ∈ S
        · have h0 : isFirstOccFrom cfg.col cfg.header S (r :: rs) 0 = false := by
            unfold isFirstOccFrom
            rw [rowKeyAt_cons_zero, if_neg hh, hk0]
            simp [hm]
          rw [h0]
          simp only [Bool.false_eq_true, if_false]
          rw [setAdd_of_mem hm]
          simp only [outGrowth, if_neg hh, hk0, wroteCond_mem hm, hInv]
          simp only [Bool.false_eq_true, if_false, List.nil_append, setAdd_of_mem hm]
          exact ih S hkeys'
        · have h0 : isFirstOccFrom cfg.col cfg.header S (r :: rs) 0 = true := by
            unfold isFirstOccFrom
            rw [rowKeyAt_cons_zero, if_neg hh, hk0]
            simp [hm]
          rw [h0]
          simp only [if_true, List.get?_cons_zero]
          simp only [outGrowth, if_neg hh, hk0, wroteCond_new hm, hInv]
          simp only [Bool.not_false, if_true, List.singleton_append,
            setAdd_of_not_mem hm]
          rw [ih (S ++ [k0]) hkeys']

/-- In invert mode, with no IndexError rows, the loop writes exactly the
repeated-occurrence rows. -/
theorem outGrowth_repeats (cfg : Cfg) (hInv : cfg.invert = true) :
    ∀ (ls : List (List String)) (S : List Key),
      (∀ r ∈ ls, r ≠ cfg.header → (keyOf cfg.col r).isSome = true) →
      outGrowth cfg S ls =
        (List.range ls.length).filterMap
          (fun i => if isRepeatFrom cfg.col cfg.header S ls i then ls.get? i else none) := by
  intro ls
  induction ls with
  | nil => intro S _; simp [outGrowth]
  | cons r rs ih =>
    intro S hkeys
    have hkeys' : ∀ x ∈ rs, x ≠ cfg.header → (keyOf cfg.col x).isSome = true :=
      fun x hx => hkeys x (List.mem_cons_of_mem r hx)
    rw [List.length_cons, List.range_succ_eq_map, List.filterMap_cons, List.filterMap_map,
      repeat_comp_succ]
    by_cases hh : r = cfg.header
    · have h0 : isRepeatFrom cfg.col cfg.header S (r :: rs) 0 = false := by
        unfold isRepeatFrom
        rw [rowKeyAt_cons_zero, if_pos hh]
      rw [h0]
      have hseen : stepSeen cfg.col cfg.header S r = S := by simp [stepSeen, hh]
      rw [hseen]
      simp only [Bool.false_eq_true, if_false]
      simp only [outGrowth, if_pos hh]
      exact ih S hkeys'
    · cases hk0 : keyOf cfg.col r with
      | none =>
        have := hkeys r (List.mem_cons_self r rs) hh
        rw [hk0] at this
        cases this
      | some k0 =>
        have hseen : stepSeen cfg.col cfg.header S r = setAdd S k0 := by
          simp [stepSeen, hh, hk0]
        rw [hseen]
        by_cases hm : k0 ∈ S
        · have h0 : isRepeatFrom cfg.col cfg.header S (r :: rs) 0 = true := by
            unfold isRepeatFrom
            rw [rowKeyAt_cons_zero, if_neg hh, hk0]
            simp [hm]
          rw [h0]
          simp only [if_true, List.get?_cons_zero]
          simp only [outGrowth, if_neg hh, hk0, wroteCond_mem hm, hInv]
          simp only [if_true, List.singleton_append, setAdd_of_mem hm]
          rw [ih S hkeys']
        · have h0 : isRepeatFrom cfg.col cfg.header S (r :: rs) 0 = false := by
            unfold isRepeatFrom
            rw [rowKeyAt_cons_zero, if_neg hh, hk0]
            simp [hm]
          rw [h0]
          simp only [Bool.false_eq_true, if_false]
          simp only [outGrowth, if_neg hh, hk0, wroteCond_new hm, hInv]
          simp only [Bool.not_true, Bool.false_eq_true, if_false, List.nil_append,
            setAdd_of_not_mem hm]
          rw [ih (S ++ [k0]) hkeys']

/-- C1: In normal (non-invert) mode the primary output is the header followed
by exactly those data rows that are the first occurrence of their Key in file
order (the whole row when no column is selected, otherwise the value at the
resolved column index), in the same relative order as the input; every later
row with an already-seen key is suppressed and rows identical to the header
are skipped.  Stated for files whose data rows all admit a key, i.e. with no
IndexError rows. -/
theorem c1_normal_mode_first_occurrences (h : List String) (col : Option Int)
    (c d : Bool) (lines : List (List String))
    (hkeys : ∀ r ∈ lines, r ≠ h → (keyOf col r).isSome = true) :
    (run_file ⟨h, col, false, c, d⟩ lines).primary = h :: firstOccurrences col h lines := by
  have hp : (run_file ⟨h, col, false, c, d⟩ lines).primary
      = h :: (runLoop ⟨h, col, false, c, d⟩ initSt lines).out := rfl
  rw [hp, runLoop_out]
  show h :: ([] ++ outGrowth ⟨h, col, false, c, d⟩ [] lines) = _
  rw [List.nil_append, outGrowth_firstOcc ⟨h, col, false, c, d⟩ rfl lines [] hkeys]
  rfl

theorem c1_witness :
    (∀ r ∈ ([[("A"),("1")],[("B"),("2")],[("A"),("3")],[("C"),("4")],[("A"),("5")]] :
        List (List String)),
      r ≠ [("k"),("v")] → (keyOf (some 0) r).isSome = true) ∧
    (run_file ⟨[("k"),("v")], some 0, false, false, false⟩
        [[("A"),("1")],[("B"),("2")],[("A"),("3")],[("C"),("4")],[("A"),("5")]]).primary
      = [("k"),("v")] :: firstOccurrences (some 0) [("k"),("v")]
          [[("A"),("1")],[("B"),("2")],[("A"),("3")],[("C"),("4")],[("A"),("5")]] ∧
    firstOccurrences (some 0) [("k"),("v")]
        [[("A"),("1")],[("B"),("2")],[("A"),("3")],[("C"),("4")],[("A"),("5")]]
      = [[("A"),("1")],[("B"),("2")],[("C"),("4")]] :=
  ⟨by decide,
   c1_normal_mode_first_occurrences [("k"),("v")] (some 0) false false
     [[("A"),("1")],[("B"),("2")],[("A"),("3")],[("C"),("4")],[("A"),("5")]] (by decide),
   by decide⟩

/-- C2: In invert mode the primary output contains, after the header, exactly
the second-and-later occurrences of each key, in input order; the first
occurrence of any repeated key is absent.  A row is written iff inserting its
key left the seen set's size unchanged.  Stated for files whose data rows all
admit a key, i.e. with no IndexError rows. -/
theorem c2_invert_mode_repeats (h : List String) (col : Option Int)
    (c d : Bool) (lines : List (List String))
    (hkeys : ∀ r ∈ lines, r ≠ h → (keyOf col r).isSome = true) :
    (run_file ⟨h, col, true, c, d⟩ lines).primary = h :: duplicateOccurrences col h lines := by
  have hp : (run_file ⟨h, col, true, c, d⟩ lines).primary
      = h :: (runLoop ⟨h, col, true, c, d⟩ initSt lines).out := rfl
  rw [hp, runLoop_out]
  show h :: ([] ++ outGrowth ⟨h, col, true, c, d⟩ [] lines) = _
  rw [List.nil_append, outGrowth_repeats ⟨h, col, true, c, d⟩ rfl lines [] hkeys]
  rfl

theorem c2_witness :
    (∀ r ∈ ([[("A"),("1")],[("B"),("2")],[("A"),("3")],[("C"),("4")],[("A"),("5")]] :
        List (List String)),
      r ≠ [("k"),("v")] → (keyOf (some 0) r).isSome = true) ∧
    (run_file ⟨[("k"),("v")], some 0, true, false, false⟩
        [[("A"),("1")],[("B"),("2")],[("A"),("3")],[("C"),("4")],[("A"),("5")]]).primary
      = [("k"),("v")] :: duplicateOccurrences (some 0) [("k"),("v")]
          [[("A"),("1")],[("B"),("2")],[("A"),("3")],[("C"),("4")],[("A"),("5")]] ∧
    duplicateOccurrences (some 0) [("k"),("v")]
        [[("A"),("1")],[("B"),("2")],[("A"),("3")],[("C"),("4")],[("A"),("5")]]
      = [[("A"),("3")],[("A"),("5")]] :=
  ⟨by decide,
   c2_invert_mode_repeats [("k"),("v")] (some 0) false false
     [[("A"),("1")],[("B"),("2")],[("A"),("3")],[("C"),("4")],[("A"),("5")]] (by decide),
   by decide⟩

/-- C3: the printed summary counts satisfy the accounting identity: the total
equals the number of records read including the header, retained (the printed
lines-after-cleaning, which counts the header) minus one plus invalid equals
total minus one, and the after-cleaning figure is computed from the final
seen-set size adjusted by the error count exactly when the consider-errors
flag is set; in normal mode it moreover equals the actual number of rows in
the primary output file. -/
theorem c3_summary_counts (h : List String) (col : Option Int) (b c d : Bool)
    (lines : List (List String)) :
    (run_file ⟨h, col, b, c, d⟩ lines).summaryTotal = lines.length + 1 ∧
    ((run_file ⟨h, col, b, c, d⟩ lines).summaryAfter - 1)
        + (run_file ⟨h, col, b, c, d⟩ lines).summaryInvalid
      = ((run_file ⟨h, col, b, c, d⟩ lines).summaryTotal : Int) - 1 ∧
    (run_file ⟨h, col, b, c, d⟩ lines).summaryAfter =
      ((runLoop ⟨h, col, b, c, d⟩ initSt lines).set_values.length : Int) +
        (if c then ((runLoop ⟨h, col, b, c, d⟩ initSt lines).int_errors : Int) else 0) + 1 ∧
    (b = false →
      (run_file ⟨h, col, b, c, d⟩ lines).summaryAfter
        = ((run_file ⟨h, col, b, c, d⟩ lines).primary.length : Int)) := by
  refine ⟨rfl, ?_, rfl, ?_⟩
  · show (((runLoop ⟨h, col, b, c, d⟩ initSt lines).set_values.length : Int) +
        (if (⟨h, col, b, c, d⟩ : Cfg).considerIndexErrors then
          ((runLoop ⟨h, col, b, c, d⟩ initSt lines).int_errors : Int) else 0) + 1 - 1)
      + (((lines.length : Int) + 1) - (runLoop ⟨h, col, b, c, d⟩ initSt lines).set_values.length -
        (if (⟨h, col, b, c, d⟩ : Cfg).considerIndexErrors then
          ((runLoop ⟨h, col, b, c, d⟩ initSt lines).int_errors : Int) else 0) - 1)
      = ((lines.length + 1 : Nat) : Int) - 1
    push_cast
    ring
  · intro hb
    subst hb
    have hout : (runLoop ⟨h, col, false, c, d⟩ initSt lines).out
        = outGrowth ⟨h, col, false, c, d⟩ [] lines := by
      rw [runLoop_out]
      rfl
    have hset : (runLoop ⟨h, col, false, c, d⟩ initSt lines).set_values
        = seenAfter ⟨h, col, false, c, d⟩ [] lines := by
      rw [runLoop_set]
      rfl
    have herr : (runLoop ⟨h, col, false, c, d⟩ initSt lines).int_errors
        = (errorRows col h lines).length := by
      rw [runLoop_int_errors]
      simp [initSt]
    have hlen : (outGrowth ⟨h, col, false, c, d⟩ [] lines).length + ([] : List Key).length
        = (seenAfter ⟨h, col, false, c, d⟩ [] lines).length +
          (if c then (errorRows col h lines).length else 0) :=
      outGrowth_length_normal ⟨h, col, false, c, d⟩ rfl lines []
    show ((runLoop ⟨h, col, false, c, d⟩ initSt lines).set_values.length : Int) +
        (if c then ((runLoop ⟨h, col, false, c, d⟩ initSt lines).int_errors : Int) else 0) + 1
      = ((h :: (runLoop ⟨h, col, false, c, d⟩ initSt lines).out).length : Int)
    rw [hout, hset, herr]
    simp only [List.length_cons, List.length_nil, Nat.add_zero] at hlen ⊢
    cases c
    · simp only [Bool.false_eq_true, if_false] at hlen ⊢
      push_cast
      omega
    · simp only [if_true] at hlen ⊢
      push_cast
      omega

theorem c3_witness :
    (false = false →
      (run_file ⟨[("k")], none, false, true, false⟩ [[("a")],[("a")],[("b")]]).summaryAfter
        = ((run_file ⟨[("k")], none, false, true, false⟩
            [[("a")],[("a")],[("b")]]).primary.length : Int)) ∧
    ((run_file ⟨[("k")], none, false, true, false⟩ [[("a")],[("a")],[("b")]]).summaryAfter - 1)
        + (run_file ⟨[("k")], none, false, true, false⟩ [[("a")],[("a")],[("b")]]).summaryInvalid
      = ((run_file ⟨[("k")], none, false, true, false⟩
          [[("a")],[("a")],[("b")]]).summaryTotal : Int) - 1 :=
  ⟨(c3_summary_counts [("k")] none false true false [[("a")],[("a")],[("b")]]).2.2.2,
   (c3_summary_counts [("k")] none false true false [[("a")],[("a")],[("b")]]).2.1⟩

theorem resolveColumn_zero (h : List String) :
    resolveColumn h (some ("0")) = Except.error () := by
  unfold resolveColumn
  rw [if_pos rfl]

theorem resolveColumn_some {h : List String} {s : String} (h0 : s ≠ "0") :
    resolveColumn h (some s) = get_header_index h (some s) := by
  unfold resolveColumn
  rw [if_neg (by simp [h0])]

theorem get_header_index_parse {h : List String} {s : String} {k : Int}
    (hs : s ≠ "") (hp : pyParseInt s = some k) :
    get_header_index h (some s) =
      (if k > (h.length : Int) then Except.error ()
       else Except.ok (ResolvedColumn.idx (k - 1))) := by
  simp only [get_header_index, if_neg hs, hp]

theorem get_header_index_title {h : List String} {s : String}
    (hs : s ≠ "") (hp : pyParseInt s = none) :
    get_header_index h (some s) =
      (if s ∈ h then Except.ok (ResolvedColumn.idx (Int.ofNat (h.indexOf s)))
       else Except.error ()) := by
  simp only [get_header_index, if_neg hs, hp]

theorem pyParseInt_ne_empty {s : String} {k : Int} (hp : pyParseInt s = some k) :
    s ≠ "" := by
  intro hcon
  rw [hcon] at hp
  have hnone : pyParseInt ("") = none := rfl
  rw [hnone] at hp
  cases hp

/-- C5 (counterexample): the claim predicts a fatal configuration error for
every numeric selector of value zero and for every non-numeric selector
absent from the header, but the code only tests the literal string "0":
the selector "00" has numeric value 0 yet resolves to index -1, and the
empty-string selector is passed through without a configuration error. -/
theorem c5_counterexample :
    pyParseInt ("00") = some 0 ∧
    resolveColumn ["a", "b", "c"] (some ("00")) = Except.ok (ResolvedColumn.idx (-1)) ∧
    resolveColumn ["a", "b", "c"] (some ("")) = Except.ok ResolvedColumn.emptyStr :=
  ⟨rfl, rfl, rfl⟩

/-- C5 (amended): column resolution fails with a configuration error exactly
when the selector is the literal string "0", or parses as an integer greater
than the number of header fields, or is a nonempty non-integer string not
present in the header.  Otherwise an integer selector k (not the literal "0")
with k at most the header width resolves to the 0-based index k - 1 — which
is negative for selectors such as "00" or "-1" — and a nonempty non-integer
selector resolves to the index of its first exact match in the header. -/
theorem c5_amended_resolution (h : List String) (col : Option String) :
    (resolveColumn h col = Except.error () ↔
      (∃ s, col = some s ∧
        (s = "0"
          ∨ (∃ k, pyParseInt s = some k ∧ k > (h.length : Int))
          ∨ (s ≠ "" ∧ pyParseInt s = none ∧ s ∉ h)))) ∧
    (∀ (s : String) (k : Int), col = some s → s ≠ "0" → pyParseInt s = some k →
      k ≤ (h.length : Int) →
      resolveColumn h col = Except.ok (ResolvedColumn.idx (k - 1))) ∧
    (∀ s : String, col = some s → s ≠ "" → pyParseInt s = none → s ∈ h →
      resolveColumn h col = Except.ok (ResolvedColumn.idx (Int.ofNat (h.indexOf s)))) := by
  refine ⟨?_, ?_, ?_⟩
  · cases col with
    | none =>
      have hok : resolveColumn h none = Except.ok ResolvedColumn.whole := rfl
      rw [hok]
      simp
    | some s =>
      by_cases h0 : s = "0"
      · subst h0
        rw [resolveColumn_zero]
        simp
      · rw [resolveColumn_some h0]
        by_cases hs : s = ""
        · subst hs
          have hok : get_header_index h (some ("")) = Except.ok ResolvedColumn.emptyStr := rfl
          rw [hok]
          constructor
          · intro hcon
            cases hcon
          · rintro ⟨s', hs', hcase⟩
            obtain rfl : s' = "" := (Option.some.inj hs').symm
            rcases hcase with hz | ⟨k, hp, _⟩ | ⟨hne, _, _⟩
            · exact absurd hz.symm (by decide)
            · rw [show pyParseInt ("") = none from rfl] at hp
              cases hp
            · exact (hne rfl).elim
        · cases hp : pyParseInt s with
          | some k =>
            rw [get_header_index_parse hs hp]
            by_cases hgt : k > (h.length : Int)
            · rw [if_pos hgt]
              constructor
              · intro _
                exact ⟨s, rfl, Or.inr (Or.inl ⟨k, hp, hgt⟩)⟩
              · intro _
                rfl
            · rw [if_neg hgt]
              constructor
              · intro hcon
                cases hcon
              · rintro ⟨s', hs', hcase⟩
                obtain rfl : s' = s := (Option.some.inj hs').symm
                rcases hcase with hz | ⟨k', hp', hgt'⟩ | ⟨_, hpn, _⟩
                · exact absurd hz h0
                · rw [hp] at hp'
                  obtain rfl : k = k' := Option.some.inj hp'
                  exact absurd hgt' hgt
                · rw [hp] at hpn
                  cases hpn
          | none =>
            rw [get_header_index_title hs hp]
            by_cases hm : s ∈ h
            · rw [if_pos hm]
              constructor
              · intro hcon
                cases hcon
              · rintro ⟨s', hs', hcase⟩
                obtain rfl : s' = s := (Option.some.inj hs').symm
                rcases hcase with hz | ⟨k', hp', _⟩ | ⟨_, _, hnm⟩
                · exact absurd hz h0
                · rw [hp] at hp'
                  cases hp'
                · exact absurd hm hnm
            · rw [if_neg hm]
              constructor
              · intro _
                exact ⟨s, rfl, Or.inr (Or.inr ⟨hs, hp, hm⟩)⟩
              · intro _
                rfl
  · rintro s k rfl h0 hp hk
    rw [resolveColumn_some h0, get_header_index_parse (pyParseInt_ne_empty hp) hp,
      if_neg (by omega)]
  · rintro s rfl hs hp hm
    rw [resolveColumn_some ?h0, get_header_index_title hs hp, if_pos hm]
    case h0 =>
      intro hcon
      rw [hcon] at hp
      rw [show pyParseInt ("0") = some 0 from rfl] at hp
      cases hp

theorem c5_amended_witness :
    resolveColumn ["id", "name"] (some ("2")) = Except.ok (ResolvedColumn.idx 1) ∧
    resolveColumn ["id", "name"] (some ("name")) = Except.ok (ResolvedColumn.idx 1) := by
  constructor
  · have h2 := (c5_amended_resolution ["id", "name"] (some ("2"))).2.1
      ("2") 2 rfl (by decide) rfl (by decide)
    simpa using h2
  · have h3 := (c5_amended_resolution ["id", "name"] (some ("name"))).2.2
      ("name") rfl (by decide) rfl (by decide)
    simpa using h3

/-- C6: every run whose column selector is invalid — the literal "0", an
ordinal exceeding the header width, or a nonempty unknown title — aborts with
a configuration error, producing neither a primary output nor an error-dump
output: the result is the bare `configError`, which carries no file contents,
because resolution happens before either output file is opened. -/
theorem c6_config_error_no_output (h : List String) (lines : List (List String))
    (col : Option String) (b c : Bool) (oname : String) (oen : Option String)
    (hbad : col = some ("0")
      ∨ (∃ s k, col = some s ∧ pyParseInt s = some k ∧ k > (h.length : Int))
      ∨ (∃ s, col = some s ∧ s ≠ "" ∧ pyParseInt s = none ∧ s ∉ h)) :
    clean_duplicates h lines col b c oname oen = RunResult.configError := by
  have herr : resolveColumn h col = Except.error () := by
    rcases hbad with rfl | ⟨s, k, rfl, hp, hgt⟩ | ⟨s, rfl, hs, hp, hm⟩
    · exact resolveColumn_zero h
    · by_cases h0 : s = "0"
      · subst h0
        exact resolveColumn_zero h
      · rw [resolveColumn_some h0, get_header_index_parse (pyParseInt_ne_empty hp) hp,
          if_pos hgt]
    · by_cases h0 : s = "0"
      · subst h0
        exact resolveColumn_zero h
      · rw [resolveColumn_some h0, get_header_index_title hs hp, if_neg hm]
  simp only [clean_duplicates, herr]

theorem c6_witness :
    clean_duplicates ["a", "b"] [[("x"), ("y")]] (some ("0")) false false ("o") none
      = RunResult.configError :=
  c6_config_error_no_output ["a", "b"] [[("x"), ("y")]] (some ("0")) false false ("o") none
    (Or.inl rfl)

/-- The error-dump file of a full run: empty unless a distinct dump path is
configured and at least one IndexError row occurred, in which case it is the
header followed by exactly the IndexError rows, in order. -/
theorem run_file_errorsFile (h : List String) (col : Option Int) (b c d : Bool)
    (lines : List (List String)) :
    (run_file ⟨h, col, b, c, d⟩ lines).errorsFile =
      (if d = true ∧ errorRows col h lines ≠ [] then h :: errorRows col h lines else []) := by
  have h1 : (run_file ⟨h, col, b, c, d⟩ lines).errorsFile
      = [] ++ errDump ⟨h, col, b, c, d⟩ 0 lines :=
    runLoop_errOut ⟨h, col, b, c, d⟩ lines initSt
  rw [List.nil_append] at h1
  rw [h1]
  rw [show errDump ⟨h, col, b, c, d⟩ 0 lines =
      (if d = true then
        (if (0 : Nat) = 0 ∧ errorRows col h lines ≠ [] then h :: errorRows col h lines
         else errorRows col h lines)
       else []) from errDump_eq ⟨h, col, b, c, d⟩ lines 0]
  by_cases hd : d = true <;> by_cases he : errorRows col h lines = [] <;> simp [hd, he]

/-- C7: an IndexError row (shorter than the resolved column index) never
stops the run: every such row is counted, is written to the primary output
iff the consider-errors flag is set, and is written to the error-dump output
iff a dump path distinct from the primary output is configured (the dump
starts with a one-time copy of the header); all rows of the file are
processed. -/
theorem c7_index_error_handling (h : List String) (col : Option Int) (b c d : Bool)
    (lines : List (List String)) :
    (runLoop ⟨h, col, b, c, d⟩ initSt lines).int_errors = (errorRows col h lines).length ∧
    (run_file ⟨h, col, b, c, d⟩ lines).errorsFile =
      (if d = true ∧ errorRows col h lines ≠ [] then h :: errorRows col h lines else []) ∧
    (c = true →
      List.Sublist (errorRows col h lines)
        (run_file ⟨h, col, b, c, d⟩ lines).primary.tail) ∧
    (c = false →
      ∀ r ∈ errorRows col h lines, r ∉ (run_file ⟨h, col, b, c, d⟩ lines).primary.tail) := by
  refine ⟨?_, run_file_errorsFile h col b c d lines, ?_, ?_⟩
  · have h2 : (runLoop ⟨h, col, b, c, d⟩ initSt lines).int_errors
        = 0 + (errorRows col h lines).length :=
      runLoop_int_errors ⟨h, col, b, c, d⟩ lines initSt
    rw [h2]
    omega
  · intro hc
    have hsub := errorRows_sublist_outGrowth ⟨h, col, b, c, d⟩ hc lines []
    have hp : (run_file ⟨h, col, b, c, d⟩ lines).primary.tail
        = [] ++ outGrowth ⟨h, col, b, c, d⟩ [] lines :=
      runLoop_out ⟨h, col, b, c, d⟩ lines initSt
    rw [hp, List.nil_append]
    exact hsub
  · intro hc r hr hmem
    have hp : (run_file ⟨h, col, b, c, d⟩ lines).primary.tail
        = [] ++ outGrowth ⟨h, col, b, c, d⟩ [] lines :=
      runLoop_out ⟨h, col, b, c, d⟩ lines initSt
    rw [hp, List.nil_append] at hmem
    have hfil : r ∈ lines ∧ decide (r ≠ h ∧ keyOf col r = none) = true :=
      List.mem_filter.mp hr
    have hkey : keyOf col r = none := (of_decide_eq_true hfil.2).2
    have hc2 : c = true :=
      outGrowth_key_none_consider ⟨h, col, b, c, d⟩ lines [] r hmem hkey
    rw [hc] at hc2
    cases hc2

theorem c7_witness :
    (runLoop ⟨["a", "b"], some 5, false, true, true⟩ initSt [[("x"), ("y")]]).int_errors
      = (errorRows (some 5) ["a", "b"] [[("x"), ("y")]]).length ∧
    List.Sublist (errorRows (some 5) ["a", "b"] [[("x"), ("y")]])
      (run_file ⟨["a", "b"], some 5, false, true, true⟩ [[("x"), ("y")]]).primary.tail ∧
    (run_file ⟨["a", "b"], some 5, false, true, true⟩ [[("x"), ("y")]]).errorsFile
      = [["a", "b"], [("x"), ("y")]] :=
  ⟨(c7_index_error_handling ["a", "b"] (some 5) false true true [[("x"), ("y")]]).1,
   (c7_index_error_handling ["a", "b"] (some 5) false true true [[("x"), ("y")]]).2.2.1 rfl,
   by
    rw [(c7_index_error_handling ["a", "b"] (some 5) false true true [[("x"), ("y")]]).2.1]
    decide⟩

/-- C8: the header row is written unconditionally as the first row of the
primary output, before any data row; it appears in the error-dump output at
most once — exactly when an IndexError occurs with a dump path distinct from
the primary output — and a run with no IndexError rows, or without a distinct
dump path, writes nothing at all to the error-dump output. -/
theorem c8_header_writes (h : List String) (col : Option Int) (b c d : Bool)
    (lines : List (List String)) :
    (run_file ⟨h, col, b, c, d⟩ lines).primary.head? = some h ∧
    (run_file ⟨h, col, b, c, d⟩ lines).errorsFile.count h =
      (if d = true ∧ errorRows col h lines ≠ [] then 1 else 0) ∧
    (d = false ∨ errorRows col h lines = [] →
      (run_file ⟨h, col, b, c, d⟩ lines).errorsFile = []) := by
  refine ⟨rfl, ?_, ?_⟩
  · rw [run_file_errorsFile]
    by_cases hcond : d = true ∧ errorRows col h lines ≠ []
    · rw [if_pos hcond, if_pos hcond, List.count_cons_self]
      have hz : (errorRows col h lines).count h = 0 := by
        rw [List.count_eq_zero]
        intro hmem
        have hfil : h ∈ lines ∧ decide (h ≠ h ∧ keyOf col h = none) = true :=
          List.mem_filter.mp hmem
        exact (of_decide_eq_true hfil.2).1 rfl
      rw [hz]
    · rw [if_neg hcond, if_neg hcond]
      rfl
  · intro hdisj
    rw [run_file_errorsFile]
    rcases hdisj with hd | he
    · rw [if_neg]
      rintro ⟨hdt, _⟩
      rw [hd] at hdt
      cases hdt
    · rw [if_neg]
      rintro ⟨_, hne⟩
      exact hne he

theorem c8_witness :
    (run_file ⟨["a", "b"], some 5, false, false, true⟩ [[("x")]]).primary.head?
      = some ["a", "b"] ∧
    (run_file ⟨["a", "b"], some 5, false, false, true⟩ [[("x")]]).errorsFile.count ["a", "b"]
      = (if true = true ∧ errorRows (some 5) ["a", "b"] [[("x")]] ≠ [] then 1 else 0) :=
  ⟨(c8_header_writes ["a", "b"] (some 5) false false true [[("x")]]).1,
   (c8_header_writes ["a", "b"] (some 5) false false true [[("x")]]).2.1⟩

/-- Rerunning a normal-mode pass on its own primary output reproduces it. -/
theorem run_file_primary_idem (cfg : Cfg) (hInv : cfg.invert = false)
    (lines : List (List String)) :
    (run_file cfg ((run_file cfg lines).primary.tail)).primary
      = (run_file cfg lines).primary := by
  have h1 : (run_file cfg lines).primary.tail = outGrowth cfg [] lines := by
    have h0 : (run_file cfg lines).primary.tail
        = initSt.out ++ outGrowth cfg initSt.set_values lines :=
      runLoop_out cfg lines initSt
    rw [h0]
    rfl
  have h2 : (run_file cfg ((run_file cfg lines).primary.tail)).primary
      = cfg.header :: ([] ++ outGrowth cfg [] ((run_file cfg lines).primary.tail)) := by
    have h0 := runLoop_out cfg ((run_file cfg lines).primary.tail) initSt
    show cfg.header :: (runLoop cfg initSt ((run_file cfg lines).primary.tail)).out = _
    rw [h0]
    rfl
  rw [h2, List.nil_append, h1]
  rw [outGrowth_id cfg hInv (outGrowth cfg [] lines) []
    (outGrowth_ne_header cfg lines [])
    (fun r hr hk => outGrowth_key_none_consider cfg lines [] r hr hk)
    (outGrowth_keys_nodup cfg hInv lines []).1
    (fun k _ => List.not_mem_nil k)]
  rw [← h1]
  rfl

/-- C9: deduplication is idempotent: a second normal-mode run with the same
column selector and flags on the primary output of a successful run succeeds
and reproduces that primary output exactly, removing nothing further. -/
theorem c9_idempotent (h : List String) (lines : List (List String))
    (col : Option String) (c : Bool) (oname : String) (oen : Option String)
    (o : Output)
    (hrun : clean_duplicates h lines col false c oname oen = RunResult.ok o) :
    ∃ o2 : Output,
      clean_duplicates h o.primary.tail col false c oname oen = RunResult.ok o2 ∧
      o2.primary = o.primary := by
  simp only [clean_duplicates] at hrun ⊢
  cases hres : resolveColumn h col with
  | error e =>
    rw [hres] at hrun
    exact RunResult.noConfusion
      (show RunResult.configError = RunResult.ok o from hrun)
  | ok rc =>
    rw [hres] at hrun
    cases rc with
    | emptyStr =>
      have hrun2 : (if ∀ l ∈ lines, l = h then
          RunResult.ok
            (⟨[h], [], lines.length + 1, (lines.length : Int), 1⟩ : Output)
        else RunResult.typeErrorAbort [h] []) = RunResult.ok o := hrun
      by_cases hall : ∀ l ∈ lines, l = h
      · rw [if_pos hall] at hrun2
        obtain rfl : (⟨[h], [], lines.length + 1, (lines.length : Int), 1⟩ : Output) = o :=
          RunResult.ok.inj hrun2
        exact ⟨⟨[h], [], 1, 0, 1⟩, rfl, rfl⟩
      · rw [if_neg hall] at hrun2
        exact RunResult.noConfusion
          (show RunResult.typeErrorAbort [h] [] = RunResult.ok o from hrun2)
    | whole =>
      obtain rfl :
          run_file ⟨h, none, false, c, resolve_errors_name oen oname != oname⟩ lines = o :=
        RunResult.ok.inj hrun
      exact ⟨_, rfl,
        run_file_primary_idem ⟨h, none, false, c, resolve_errors_name oen oname != oname⟩
          rfl lines⟩
    | idx i =>
      obtain rfl :
          run_file ⟨h, some i, false, c, resolve_errors_name oen oname != oname⟩ lines = o :=
        RunResult.ok.inj hrun
      exact ⟨_, rfl,
        run_file_primary_idem ⟨h, some i, false, c, resolve_errors_name oen oname != oname⟩
          rfl lines⟩

theorem c9_witness :
    ∃ o2 : Output,
      clean_duplicates ["k"]
          ((run_file ⟨["k"], none, false, false, false⟩ [[("a")], [("a")]]).primary.tail)
          none false false ("o") none = RunResult.ok o2 ∧
      o2.primary = (run_file ⟨["k"], none, false, false, false⟩ [[("a")], [("a")]]).primary :=
  c9_idempotent ["k"] [[("a")], [("a")]] none false ("o") none
    (run_file ⟨["k"], none, false, false, false⟩ [[("a")], [("a")]]) (by decide)

/-- C10: the zero-column guard compares the selector's string form against the
literal "0" only, so the selector "00" resolves without error to index -1 and
"-1" resolves to index -2, for every header; a resolved negative index then
selects a field counted from the end of each row — index -(n+1) picks the
n-th field from the end — and the loop's key at index -1 is the row's last
field. -/
theorem c10_zero_guard_negative_index :
    (∀ h : List String, resolveColumn h (some ("00")) = Except.ok (ResolvedColumn.idx (-1))) ∧
    (∀ h : List String, resolveColumn h (some ("-1")) = Except.ok (ResolvedColumn.idx (-2))) ∧
    (∀ (r : List String) (n : Nat), pyIndex r (-((n : Int) + 1)) = r.reverse.get? n) ∧
    (∀ r : List String, keyOf (some (-1)) r = (r.reverse.get? 0).map Key.field) := by
  have hneg : ∀ (r : List String) (n : Nat), pyIndex r (-((n : Int) + 1)) = r.reverse.get? n := by
    intro r n
    unfold pyIndex
    rw [if_neg (by omega)]
    by_cases hn : n < r.length
    · rw [if_pos (by omega)]
      have ht : ((r.length : Int) + -((n : Int) + 1)).toNat = r.length - 1 - n := by omega
      rw [ht, List.get?_eq_getElem?, List.get?_eq_getElem?, List.getElem?_reverse hn]
    · rw [if_neg (by omega)]
      symm
      rw [List.get?_eq_getElem?]
      apply List.getElem?_eq_none
      rw [List.length_reverse]
      omega
  refine ⟨?_, ?_, hneg, ?_⟩
  · intro h
    rw [resolveColumn_some (by decide),
      get_header_index_parse (by decide) (show pyParseInt ("00") = some 0 by decide),
      if_neg (by omega)]
    have h01 : (0 - 1 : Int) = -1 := by decide
    rw [h01]
  · intro h
    rw [resolveColumn_some (by decide),
      get_header_index_parse (by decide) (show pyParseInt ("-1") = some (-1) by decide),
      if_neg (by omega)]
    have h12 : (-1 - 1 : Int) = -2 := by decide
    rw [h12]
  · intro r
    have hx : pyIndex r (-1) = r.reverse.get? 0 := hneg r 0
    simp only [keyOf, hx]

theorem hasPair_cons (a b x : Char) (l : List Char) :
    hasPair a b (x :: l) = ((decide (x = a) && decide (l.head? = some b)) || hasPair a b l) := by
  cases l with
  | nil => simp [hasPair]
  | cons y ys => simp [hasPair]

theorem hasPair_append (a b : Char) :
    ∀ xs ys : List Char,
      hasPair a b (xs ++ ys) =
        (hasPair a b xs
          || (decide (xs.getLast? = some a) && decide (ys.head? = some b))
          || hasPair a b ys) := by
  intro xs
  induction xs with
  | nil => intro ys; simp [hasPair]
  | cons x xs' ih =>
    intro ys
    rw [List.cons_append, hasPair_cons, ih, hasPair_cons]
    cases xs' with
    | nil =>
      simp [hasPair, List.getLast?, Bool.or_assoc]
    | cons z zs =>
      have hlast : ((x :: z :: zs).getLast? : Option Char) = (z :: zs).getLast? := by
        simp [List.getLast?_cons_cons]
      rw [hlast]
      have hhead : ((z :: zs) ++ ys).head? = some z := rfl
      rw [hhead]
      simp only [List.head?_cons]
      cases hPair : hasPair a b ((z :: zs) ++ ys) <;>
        cases hx : decide (x = a) <;>
          cases hz : decide ((z : Char) = b) <;>
            simp_all [Bool.or_assoc, Bool.or_comm, Bool.or_left_comm]

theorem reprQuote_cases (s : List Char) :
    reprQuote s = Char.ofNat 39 ∨ reprQuote s = '"' := by
  unfold reprQuote
  split
  · exact Or.inr rfl
  · exact Or.inl rfl

theorem escChar_ne_nil (q c : Char) : escChar q c ≠ [] := by
  unfold escChar
  split_ifs <;> simp

theorem mem_escChar {q c c0 : Char}
    (hq : q = Char.ofNat 39 ∨ q = '"')
    (hplain : c0 ∉ (['\\', 't', 'n', 'r', Char.ofNat 39, '"', '\t', '\n', '\r'] : List Char)) :
    c0 ∈ escChar q c ↔ c0 = c := by
  have hp : c0 ≠ '\\' ∧ c0 ≠ 't' ∧ c0 ≠ 'n' ∧ c0 ≠ 'r' ∧ c0 ≠ Char.ofNat 39 ∧
      c0 ≠ '"' ∧ c0 ≠ '\t' ∧ c0 ≠ '\n' ∧ c0 ≠ '\r' := by
    simpa using hplain
  obtain ⟨h1, h2, h3, h4, h5, h6, h7, h8, h9⟩ := hp
  unfold escChar
  split_ifs with hc1 hc2 hc3 hc4 hc5
  · subst hc1
    simp [h1]
  · subst hc2
    rcases hq with rfl | rfl
    · simp [h1, h5]
    · simp [h1, h6]
  · subst hc3
    simp [h1, h2, h7]
  · subst hc4
    simp [h1, h3, h8]
  · subst hc5
    simp [h1, h4, h9]
  · simp

theorem mem_flatMap_esc {q c0 : Char} {f : List Char}
    (hq : q = Char.ofNat 39 ∨ q = '"')
    (hplain : c0 ∉ (['\\', 't', 'n', 'r', Char.ofNat 39, '"', '\t', '\n', '\r'] : List Char)) :
    c0 ∈ f.flatMap (escChar q) ↔ c0 ∈ f := by
  rw [List.mem_flatMap]
  constructor
  · rintro ⟨c, hc, hmem⟩
    rw [mem_escChar hq hplain] at hmem
    rw [hmem]
    exact hc
  · intro hc
    exact ⟨c0, hc, (mem_escChar hq hplain).mpr rfl⟩

theorem mem_reprStr {c0 : Char} {f : List Char}
    (hplain : c0 ∉ (['\\', 't', 'n', 'r', Char.ofNat 39, '"', '\t', '\n', '\r'] : List Char)) :
    c0 ∈ reprStr f ↔ c0 ∈ f := by
  have hp : c0 ≠ '\\' ∧ c0 ≠ 't' ∧ c0 ≠ 'n' ∧ c0 ≠ 'r' ∧ c0 ≠ Char.ofNat 39 ∧
      c0 ≠ '"' ∧ c0 ≠ '\t' ∧ c0 ≠ '\n' ∧ c0 ≠ '\r' := by
    simpa using hplain
  have hqne : c0 ≠ reprQuote f := by
    rcases reprQuote_cases f with hq | hq <;> rw [hq]
    · exact hp.2.2.2.2.1
    · exact hp.2.2.2.2.2.1
  unfold reprStr
  rw [List.mem_append, List.mem_cons, List.mem_singleton,
    mem_flatMap_esc (reprQuote_cases f) hplain]
  simp [hqne]

theorem mem_joinComma {c0 : Char} (hc : c0 ≠ ',') (hs : c0 ≠ ' ') :
    ∀ xs : List (List Char), c0 ∈ joinComma xs ↔ ∃ x ∈ xs, c0 ∈ x := by
  intro xs
  induction xs with
  | nil => simp [joinComma]
  | cons x ys ih =>
    cases ys with
    | nil =>
      show c0 ∈ x ↔ _
      simp
    | cons y zs =>
      show c0 ∈ (x ++ [',', ' ']) ++ joinComma (y :: zs) ↔ _
      simp only [List.mem_append, List.mem_cons, List.not_mem_nil, or_false, ih]
      constructor
      · rintro ((hx | (rfl | rfl)) | ⟨z, hz, hcz⟩)
        · exact ⟨x, Or.inl rfl, hx⟩
        · exact absurd rfl hc
        · exact absurd rfl hs
        · exact ⟨z, Or.inr hz, hcz⟩
      · rintro ⟨z, hz, hcz⟩
        rcases hz with rfl | hz'
        · exact Or.inl (Or.inl hcz)
        · exact Or.inr ⟨z, hz', hcz⟩

theorem mem_pyReprRow {c0 : Char} {row : List (List Char)}
    (hplain : c0 ∉ (['\\', 't', 'n', 'r', Char.ofNat 39, '"', '\t', '\n', '\r',
      '[', ']', ',', ' '] : List Char)) :
    c0 ∈ pyReprRow row ↔ ∃ f ∈ row, c0 ∈ f := by
  have hp : c0 ∉ (['\\', 't', 'n', 'r', Char.ofNat 39, '"', '\t', '\n', '\r'] : List Char) := by
    intro hmem
    apply hplain
    simp only [List.mem_cons, List.not_mem_nil, or_false] at hmem ⊢
    tauto
  have hb : c0 ≠ '[' ∧ c0 ≠ ']' ∧ c0 ≠ ',' ∧ c0 ≠ ' ' := by
    refine ⟨?_, ?_, ?_, ?_⟩ <;> intro hcon <;> apply hplain <;> rw [hcon] <;> simp
  unfold pyReprRow
  rw [List.mem_append, List.mem_cons, List.mem_singleton, mem_joinComma hb.2.2.1 hb.2.2.2]
  simp [List.mem_map, mem_reprStr hp, hb.1, hb.2.1]

theorem comma_mem_joinComma :
    ∀ xs : List (List Char), (',' ∈ joinComma xs ↔ (∃ x ∈ xs, ',' ∈ x) ∨ 2 ≤ xs.length) := by
  intro xs
  induction xs with
  | nil => simp [joinComma]
  | cons x ys ih =>
    cases ys with
    | nil =>
      show ',' ∈ x ↔ _
      simp
    | cons y zs =>
      show ',' ∈ (x ++ [',', ' ']) ++ joinComma (y :: zs) ↔ _
      constructor
      · intro _
        right
        simp only [List.length_cons]
        omega
      · intro _
        simp

theorem comma_mem_pyReprRow (row : List (List Char)) :
    ',' ∈ pyReprRow row ↔ (∃ f ∈ row, ',' ∈ f) ∨ 2 ≤ row.length := by
  have hp : (',' : Char) ∉
      (['\\', 't', 'n', 'r', Char.ofNat 39, '"', '\t', '\n', '\r'] : List Char) := by decide
  have hb1 : (',' : Char) ≠ '[' := by decide
  have hb2 : (',' : Char) ≠ ']' := by decide
  unfold pyReprRow
  rw [List.mem_append, List.mem_cons, List.mem_singleton, comma_mem_joinComma]
  simp [List.mem_map, mem_reprStr hp, hb1, hb2]

theorem escChar_head_t {q c : Char} (hq : q = Char.ofNat 39 ∨ q = '"') :
    ((escChar q c).head? = some 't') ↔ c = 't' := by
  unfold escChar
  split_ifs with hc1 hc2 hc3 hc4 hc5
  · subst hc1
    decide
  · subst hc2
    rcases hq with rfl | rfl <;> decide
  · subst hc3
    decide
  · subst hc4
    decide
  · subst hc5
    decide
  · simp

theorem escChar_getLast_bs {q c : Char} (hq : q = Char.ofNat 39 ∨ q = '"') :
    ((escChar q c).getLast? = some '\\') ↔ c = '\\' := by
  unfold escChar
  split_ifs with hc1 hc2 hc3 hc4 hc5
  · subst hc1
    decide
  · subst hc2
    rcases hq with rfl | rfl <;> decide
  · subst hc3
    decide
  · subst hc4
    decide
  · subst hc5
    decide
  · simp [List.getLast?]

theorem hasPair_escChar {q c : Char} (hq : q = Char.ofNat 39 ∨ q = '"') :
    hasPair '\\' 't' (escChar q c) = decide (c = '\t') := by
  unfold escChar
  split_ifs with hc1 hc2 hc3 hc4 hc5
  · subst hc1
    decide
  · subst hc2
    rcases hq with rfl | rfl <;> decide
  · subst hc3
    decide
  · subst hc4
    decide
  · subst hc5
    decide
  · simp [hasPair, hc3]

theorem flatMap_esc_head_t {q : Char} (hq : q = Char.ofNat 39 ∨ q = '"')
    (f : List Char) :
    (((f.flatMap (escChar q)).head? = some 't') ↔ f.head? = some 't') := by
  cases f with
  | nil => simp
  | cons c rest =>
    show ((escChar q c ++ rest.flatMap (escChar q)).head? = some 't') ↔ _
    have hne : ∃ x xs, escChar q c = x :: xs := by
      unfold escChar
      split_ifs <;> exact ⟨_, _, rfl⟩
    obtain ⟨x, xs, hx⟩ := hne
    have hh : (escChar q c ++ rest.flatMap (escChar q)).head? = some x := by
      rw [hx]
      rfl
    rw [hh]
    have hh2 : (escChar q c).head? = some x := by
      rw [hx]
      rfl
    rw [← hh2, escChar_head_t hq]
    simp

theorem hasPair_bs_t_flatMap {q : Char} (hq : q = Char.ofNat 39 ∨ q = '"') :
    ∀ f : List Char,
      hasPair '\\' 't' (f.flatMap (escChar q))
        = (decide ('\t' ∈ f) || hasPair '\\' 't' f) := by
  intro f
  induction f with
  | nil => simp [hasPair]
  | cons c rest ih =>
    show hasPair '\\' 't' (escChar q c ++ rest.flatMap (escChar q)) = _
    rw [hasPair_append, ih, hasPair_cons, hasPair_escChar hq]
    have e1 : decide ((escChar q c).getLast? = some '\\') = decide (c = '\\') := by
      simp only [escChar_getLast_bs hq]
    have e2 : decide ((rest.flatMap (escChar q)).head? = some 't')
        = decide (rest.head? = some 't') := by
      simp only [flatMap_esc_head_t hq rest]
    have e3 : decide ('\t' ∈ c :: rest) = (decide (c = '\t') || decide ('\t' ∈ rest)) := by
      by_cases hc : c = '\t'
      · subst hc
        simp
      · have hc2 : ¬('\t' = c) := fun hcon => hc hcon.symm
        simp [List.mem_cons, hc, hc2]
    rw [e1, e2, e3]
    simp [Bool.or_assoc, Bool.or_comm, Bool.or_left_comm]

theorem hasPair_bs_t_reprStr (f : List Char) :
    hasPair '\\' 't' (reprStr f) = (decide ('\t' ∈ f) || hasPair '\\' 't' f) := by
  have hq := reprQuote_cases f
  have hqb : ¬(reprQuote f = '\\') := by
    rcases hq with h | h <;> rw [h] <;> decide
  have hqt : ¬((some (reprQuote f) : Option Char) = some 't') := by
    rcases hq with h | h <;> rw [h] <;> decide
  unfold reprStr
  rw [hasPair_append, hasPair_cons, hasPair_bs_t_flatMap hq]
  have hhead : ([reprQuote f] : List Char).head? = some (reprQuote f) := rfl
  rw [hhead]
  simp [hasPair, hqb, hqt, Bool.or_assoc]

theorem hasPair_bs_t_join :
    ∀ row : List (List Char),
      hasPair '\\' 't' (joinComma (row.map reprStr))
        = row.any (fun f => decide ('\t' ∈ f) || hasPair '\\' 't' f) := by
  intro row
  induction row with
  | nil => simp [joinComma, hasPair]
  | cons f gs ih =>
    cases gs with
    | nil =>
      show hasPair '\\' 't' (reprStr f) = _
      rw [hasPair_bs_t_reprStr]
      simp
    | cons g gs2 =>
      show hasPair '\\' 't'
          ((reprStr f ++ [',', ' ']) ++ joinComma ((g :: gs2).map reprStr)) = _
      rw [hasPair_append, hasPair_append, ih, hasPair_bs_t_reprStr]
      have hlast1 : ((reprStr f ++ [',', ' ']).getLast? : Option Char) = some ' ' := by
        rw [List.getLast?_append_of_ne_nil (reprStr f) (by simp)]
        rfl
      rw [hlast1]
      have hsep : hasPair '\\' 't' ([',', ' '] : List Char) = false := by decide
      have e1 : decide (([',', ' '] : List Char).head? = some 't') = false := by decide
      have e2 : decide ((some ' ' : Option Char) = some '\\') = false := by decide
      rw [hsep, e1, e2]
      simp [Bool.or_assoc]

theorem hasPair_bs_t_pyReprRow (row : List (List Char)) :
    hasPair '\\' 't' (pyReprRow row)
      = row.any (fun f => decide ('\t' ∈ f) || hasPair '\\' 't' f) := by
  unfold pyReprRow
  rw [hasPair_append, hasPair_cons, hasPair_bs_t_join]
  have e1 : decide (([']'] : List Char).head? = some 't') = false := by decide
  have e2 : decide (('[' : Char) = '\\') = false := by decide
  rw [e1, e2]
  simp [hasPair]

/-- C4 (counterexample): the claim says the sniffer returns the first
priority-list character occurring in the raw header line, and '\n' when none
occurs; but on the raw line "a\tb" — the four characters a, backslash, t, b,
which contains no pipe, tab, semicolon or comma — the sniffer returns a tab,
because it searches the Python repr of the parsed row, in which a literal
backslash also produces the backslash-t escape sequence it uses to detect
tabs. -/
theorem c4_counterexample :
    get_file_delimiter ['a', '\\', 't', 'b'] = '\t' ∧
    ('|' ∉ (['a', '\\', 't', 'b'] : List Char)) ∧
    ('\t' ∉ (['a', '\\', 't', 'b'] : List Char)) ∧
    (';' ∉ (['a', '\\', 't', 'b'] : List Char)) ∧
    (',' ∉ (['a', '\\', 't', 'b'] : List Char)) := by
  decide

/-- C4 (amended): for every header line, the sniffer parses the line as a
comma-delimited csv record and searches the Python string representation of
the parsed row for the priority list ['|', tab, ';', ','] in order: '|' and
';' match iff some field contains them, tab matches iff some field contains a
real tab or a literal backslash immediately followed by 't', and ',' matches
iff some field contains a comma or the record has at least two fields; when
nothing matches the newline sentinel '\n' is returned.  In particular the
header line "a|b|c" yields '|' and "a,b,c" yields ','. -/
theorem c4_sniffer_amended :
    (∀ l : List Char, get_file_delimiter l = sniffSpec (csvSplitComma l)) ∧
    get_file_delimiter (("a|b|c").data) = '|' ∧
    get_file_delimiter (("a,b,c").data) = ',' := by
  refine ⟨?_, by decide, by decide⟩
  intro l
  have hpipe : ('|' ∈ pyReprRow (csvSplitComma l)) ↔ ∃ f ∈ csvSplitComma l, '|' ∈ f :=
    mem_pyReprRow (by decide)
  have hsemi : (';' ∈ pyReprRow (csvSplitComma l)) ↔ ∃ f ∈ csvSplitComma l, ';' ∈ f :=
    mem_pyReprRow (by decide)
  have hcomma := comma_mem_pyReprRow (csvSplitComma l)
  have htab : (hasPair '\\' 't' (pyReprRow (csvSplitComma l)) = true) ↔
      (∃ f ∈ csvSplitComma l, '\t' ∈ f ∨ hasPair '\\' 't' f = true) := by
    rw [hasPair_bs_t_pyReprRow, List.any_eq_true]
    simp
  simp only [get_file_delimiter, sniffSpec, hpipe, hsemi, hcomma, htab]

end CleanDup
